import Mathlib

/-!
Shallow embedding of `csv_permissions` (django-csvpermissions), following
`src/csv_permissions/permissions.py`.

Modelling conventions:
* Python exceptions become an `Err` sum type returned through `Except`.
* Python `dict`s become association lists (`AList`) with python insertion
  semantics: assigning to an existing key updates it in place, assigning to a
  fresh key appends at the end; iteration follows the list order.
* Python `set`s become insertion-ordered duplicate-free lists (`setAdd`,
  `setUpdate`); only membership and equality of deterministically built sets
  matter for the claims.
* A CSV source file is given at cell granularity: the list of header field
  names plus, per data row, the list of raw cell strings (the `csv.DictReader`
  row dictionary is reconstructed by `rowDict`, including the last-value-wins
  behaviour for duplicated field names and `None` padding for short rows).
* Django's app/model registry is an `AppEnv` mapping an app label to its
  (lower-case) model names; `import_string` of a rule function is abstracted
  by a `HasRuleFunc` predicate saying whether the import succeeds, and the
  behaviour of successfully imported rule functions by a `rules` argument of
  `PermFn.call`.
* Evaluator callables produced by `_resolve_function` are represented by the
  inductive `PermFn`; invoking them is `PermFn.call`.
-/

namespace CsvPermissions

/-- Python exception classes raised by the embedded code. -/
inductive Err where
  | runtimeError (msg : String)
  | valueError (msg : String)
  | lookupError (msg : String)
  | attributeError (msg : String)
  | notImplementedError (msg : String)
deriving DecidableEq, Repr

instance {ε α : Type} [DecidableEq ε] [DecidableEq α] : DecidableEq (Except ε α) :=
  fun a b =>
    match a, b with
    | .ok x, .ok y =>
      if h : x = y then .isTrue (by rw [h]) else .isFalse (by intro hc; cases hc; exact h rfl)
    | .error x, .error y =>
      if h : x = y then .isTrue (by rw [h]) else .isFalse (by intro hc; cases hc; exact h rfl)
    | .ok _, .error _ => .isFalse (by intro hc; cases hc)
    | .error _, .ok _ => .isFalse (by intro hc; cases hc)

/-- Association list standing for a python `dict` (insertion ordered). -/
abbrev AList (α β : Type) := List (α × β)

/-- `d.get(k)` on a python dict: first (and, for dicts built with
`alistInsert`, only) binding of the key. -/
def alistFind? {α β : Type} [DecidableEq α] : AList α β → α → Option β
  | [], _ => none
  | (k, v) :: rest, key => if k = key then some v else alistFind? rest key

/-- `k in d` on a python dict. -/
def alistContains {α β : Type} [DecidableEq α] (l : AList α β) (k : α) : Bool :=
  (alistFind? l k).isSome

/-- `d[k] = v` on a python dict: update in place if present, else append. -/
def alistInsert {α β : Type} [DecidableEq α] : AList α β → α → β → AList α β
  | [], key, val => [(key, val)]
  | (k, v) :: rest, key, val =>
    if k = key then (k, val) :: rest else (k, v) :: alistInsert rest key val

/-- `d1.update(d2)` on python dicts. -/
def alistUpdate {α β : Type} [DecidableEq α] (d : AList α β) (d2 : AList α β) : AList α β :=
  d2.foldl (fun acc kv => alistInsert acc kv.1 kv.2) d

/-- `s.add(x)` on a python set (insertion-ordered model). -/
def setAdd {α : Type} [DecidableEq α] (s : List α) (x : α) : List α :=
  if x ∈ s then s else s ++ [x]

/-- `s.update(xs)` on a python set. -/
def setUpdate {α : Type} [DecidableEq α] (s : List α) (xs : List α) : List α :=
  xs.foldl setAdd s

/-- `str(x)` for an optional string (python renders `None` as `"None"`
inside f-strings). -/
def pyStr : Option String → String
  | none => "None"
  | some s => s

/-- Drop leading whitespace characters. -/
def charListTrimLeft : List Char → List Char
  | [] => []
  | c :: rest => if c.isWhitespace then charListTrimLeft rest else c :: rest

/-- python `str.strip()` (structural implementation, so that proofs can
evaluate it). -/
def strTrim (s : String) : String :=
  ⟨(charListTrimLeft (charListTrimLeft s.data).reverse).reverse⟩

/-- ASCII lower-casing of one character. -/
def charToLower (c : Char) : Char :=
  if 65 ≤ c.toNat ∧ c.toNat ≤ 90 then Char.ofNat (c.toNat + 32) else c

/-- python `str.lower()` (structural implementation). -/
def strToLower (s : String) : String :=
  ⟨s.data.map charToLower⟩

/-- Is the first list a prefix of the second? -/
def charListIsPre : List Char → List Char → Bool
  | [], _ => true
  | _ :: _, [] => false
  | c :: cs, d :: ds => c = d && charListIsPre cs ds

/-- python `str.startswith` (structural implementation). -/
def strStartsWith (s pre : String) : Bool :=
  charListIsPre pre.data s.data

/-- Everything after the first `:`, when there is one. -/
def charListAfterColon : List Char → Option (List Char)
  | [] => none
  | c :: rest => if c = ':' then some rest else charListAfterColon rest

/-- `s.split(":", 1)[-1]`: everything after the first colon (the whole
string when there is no colon). -/
def afterFirstColon (s : String) : String :=
  match charListAfterColon s.data with
  | none => s
  | some rest => ⟨rest⟩

/-- One cell of the CSV awaiting resolution
(`PartiallyResolvedPermission` in `permissions.py`; the `app_config` field
holds the app label, `model` the canonical lower-case model name, `action`
and `access_level` the raw cell values, `none` standing for python `None`). -/
structure PartiallyResolvedPermission where
  app_config : String
  model : Option String
  action : Option String
  access_level : Option String
deriving DecidableEq, Repr

/-- The installed-apps registry: app label to list of lower-case model names. -/
abbrev AppEnv := List (String × List String)

/-- `django.apps.apps.get_app_config(label)`: returns the label, raising
`LookupError` when the app is unknown (or the label cell was missing). -/
def getAppConfig (env : AppEnv) : Option String → Except Err String
  | none => .error (.lookupError "No installed app with label None.")
  | some label =>
    if (env.find? (fun p => p.1 = label)).isSome then .ok label
    else .error (.lookupError ("No installed app with label " ++ label ++ "."))

/-- `app_config.get_model(name)`: case-insensitive lookup returning the
canonical lower-case model name, raising `LookupError` when unknown. -/
def getModel (env : AppEnv) (label : String) (name : String) : Except Err String :=
  match env.find? (fun p => p.1 = label) with
  | none => .error (.lookupError ("No installed app with label " ++ label ++ "."))
  | some (_, models) =>
    if strToLower name ∈ models then .ok (strToLower name)
    else .error (.lookupError ("App " ++ label ++ " does not have a " ++ name ++ " model."))

/-- `_PREDEFINED_ACTION_IS_GLOBAL.get(action, default)` (the dict literal at
the top of `permissions.py`). -/
def predefinedActionIsGlobal : Option String → Option Bool
  | some "list" => some true
  | some "detail" => some false
  | some "create" => some true
  | some "add" => some true
  | some "change" => some false
  | some "update" => some false
  | some "delete" => some false
  | _ => none

/-- The signature of `settings.CSV_PERMISSIONS_RESOLVE_RULE_NAME`
(`ResolveRuleNameFunc`): app label, optional model, optional action,
is-global flag, to rule name. -/
abbrev ResolveRuleNameFunc := String → Option String → Option String → Bool → String

/-- `_default_resolve_rule_name`: `"app.action_model"` when a model is
present (via `get_permission_codename`), else `"app.action"`. -/
def defaultResolveRuleName (appLabel : String) (model : Option String)
    (action : Option String) (_isGlobal : Bool) : String :=
  match model with
  | some m => appLabel ++ "." ++ pyStr action ++ "_" ++ m
  | none => appLabel ++ "." ++ pyStr action

/-- The `csv.DictReader` row dictionary: field names zipped with the row
cells, later duplicate field names overwriting earlier ones, short rows
padded with `None` (the `restval`). -/
def rowDict (fieldnames : List String) (cells : List String) :
    AList String (Option String) :=
  (fieldnames.zip (cells.map some ++
      List.replicate (fieldnames.length - cells.length) none)).foldl
    (fun d kv => alistInsert d kv.1 kv.2) []

/-- One value of the `DictReader` row dictionary, in iteration order: a
named field's value, or the `restkey` list that holds a long row's extra
cells. -/
inductive RowVal where
  | cell (v : Option String)
  | extras
deriving DecidableEq, Repr

/-- The values of the `DictReader` row dictionary in insertion order: the
named fields (as in `rowDict`), then the `restkey` entry when the row has
more cells than the header (`DictReader` adds it last). -/
def rowValues (fieldnames : List String) (cells : List String) : List RowVal :=
  (rowDict fieldnames cells).map (fun kv => RowVal.cell kv.2) ++
    (if fieldnames.length < cells.length then [RowVal.extras] else [])

/-- `all(x is None or x.strip() == "" for x in row.values())`
(`permissions.py` line 231). The generator short-circuits at the first
non-blank named value; if it reaches the `restkey` entry (every earlier
value was blank), `x.strip()` on a python list raises `AttributeError`. -/
def blankCheck : List RowVal → Except Err Bool
  | [] => .ok true
  | RowVal.cell none :: rest => blankCheck rest
  | RowVal.cell (some s) :: rest =>
    if strTrim s = "" then blankCheck rest else .ok false
  | RowVal.extras :: _ =>
    .error (.attributeError "list object has no attribute strip")

/-- What `_parse_csv` does with one data row: skip it, or record an entry. -/
inductive RowAction where
  | skip
  | add (app_label : String) (model : Option String) (action : Option String)
      (is_global : Bool) (row : AList String (Option String))
deriving Repr

/-- The validation part of the `_parse_csv` row loop (`permissions.py`
lines 229-258): the blank-row test over the row dict's values (which
crashes with `AttributeError` only when the `restkey` list of a
longer-than-header row is reached, i.e. when every named value before it
is blank), comment-row skipping, app/model resolution, the `Is Global`
token, and the predefined-action consistency check. A `None` value in the
`Model` column of a non-blank row also crashes at `.strip()`. -/
def classifyRow (env : AppEnv) (fieldnames : List String) (cells : List String) :
    Except Err RowAction := do
  let row := rowDict fieldnames cells
  let blank ← blankCheck (rowValues fieldnames cells)
  if blank then
    return .skip
  match (alistFind? row "Model").join with
  | none => throw (.attributeError "NoneType object has no attribute strip")
  | some model_name_orig => do
    if ["//", "#"].any (fun p => strStartsWith (strTrim model_name_orig) p) then
      return .skip
    let app_label ← getAppConfig env ((alistFind? row "App").join)
    let model ← if model_name_orig ≠ "" then do
        let m ← getModel env app_label model_name_orig
        pure (some m)
      else pure none
    let action := (alistFind? row "Action").join
    let is_global ←
      if (alistFind? row "Is Global").join = some "yes" then pure true
      else if (alistFind? row "Is Global").join = some "no" then pure false
      else throw (.runtimeError "Invalid value for Is Global.")
    if (predefinedActionIsGlobal action).getD is_global ≠ is_global then
      throw (.runtimeError ("Invalid action / global setting for " ++ app_label ++
        "." ++ model_name_orig ++ "." ++ pyStr action))
    return .add app_label model action is_global row

/-- Accumulator of the `_parse_csv` row loop. -/
structure ParseState where
  was_empty : Bool
  perm_is_global : AList String Bool
  perm_user_type_details : AList String (AList String PartiallyResolvedPermission)
deriving DecidableEq, Repr

/-- The state-update part of the `_parse_csv` row loop (`permissions.py`
lines 258-272): the first row for a rule name fixes its global flag, and
each user-type cell overwrites any earlier cell for the same
(rule name, user type). -/
def applyRow (rrn : ResolveRuleNameFunc) (user_types : List String)
    (st : ParseState) : RowAction → ParseState
  | .skip => { st with was_empty := false }
  | .add app_label model action is_global row =>
    let rule_name := rrn app_label model action is_global
    let pig :=
      if alistContains st.perm_is_global rule_name then st.perm_is_global
      else alistInsert st.perm_is_global rule_name is_global
    let pdet :=
      if alistContains st.perm_is_global rule_name then st.perm_user_type_details
      else alistInsert st.perm_user_type_details rule_name []
    let inner := (alistFind? pdet rule_name).getD []
    let inner2 := user_types.foldl
      (fun acc ut => alistInsert acc ut
        { app_config := app_label, model := model, action := action,
          access_level := (alistFind? row ut).join }) inner
    ⟨false, pig, alistInsert pdet rule_name inner2⟩

/-- One iteration of the `_parse_csv` row loop. -/
def processRow (env : AppEnv) (rrn : ResolveRuleNameFunc)
    (fieldnames user_types : List String) (st : ParseState)
    (cells : List String) : Except Err ParseState :=
  match classifyRow env fieldnames cells with
  | .error e => .error e
  | .ok act => .ok (applyRow rrn user_types st act)

/-- The `_parse_csv` row loop. -/
def parseRows (env : AppEnv) (rrn : ResolveRuleNameFunc)
    (fieldnames user_types : List String) :
    ParseState → List (List String) → Except Err ParseState
  | st, [] => .ok st
  | st, r :: rs =>
    match processRow env rrn fieldnames user_types st r with
    | .error e => .error e
    | .ok st2 => parseRows env rrn fieldnames user_types st2 rs

/-- Result of `_parse_csv`. -/
structure ParseOutput where
  perm_is_global : AList String Bool
  perm_user_type_details : AList String (AList String PartiallyResolvedPermission)
  user_types : List String
deriving DecidableEq, Repr

/-- `_parse_csv`: header validation, the row loop, and the emptiness check. -/
def parseCsv (env : AppEnv) (rrn : ResolveRuleNameFunc)
    (fieldnames : List String) (rows : List (List String)) :
    Except Err ParseOutput :=
  if fieldnames.take 4 ≠ ["Model", "App", "Action", "Is Global"] then
    .error (.runtimeError "Invalid csv_permissions CSV column headers found")
  else
    let user_types := fieldnames.drop 4
    if user_types = [] then
      .error (.runtimeError "Invalid csv_permissions CSV column headers found")
    else
      match parseRows env rrn fieldnames user_types ⟨true, [], []⟩ rows with
      | .error e => .error e
      | .ok st =>
        if st.was_empty then .error (.runtimeError "Empty permissions file")
        else .ok ⟨st.perm_is_global, st.perm_user_type_details, user_types⟩

/-- The global-flag consistency loop of `_resolve_functions`
(`permissions.py` lines 322-324): raise `ValueError` when a permission
already recorded has a different flag in the new file. -/
def checkIsGlobalConsistent (acc : AList String Bool) :
    AList String Bool → Except Err Unit
  | [] => .ok ()
  | (p, g) :: rest =>
    match alistFind? acc p with
    | some g2 =>
      if g2 ≠ g then
        .error (.valueError ("Is Global for " ++ p ++
          " is inconsistent with a previous CSV file"))
      else checkIsGlobalConsistent acc rest
    | none => checkIsGlobalConsistent acc rest

/-- The inner cell-merge loop of `_resolve_functions` (`permissions.py`
lines 331-336): a cell for an already-present (permission, user type) must
be equal to the recorded one, else `ValueError`; a fresh one is recorded. -/
def mergeUserTypes (permission : String) :
    AList String PartiallyResolvedPermission →
    AList String PartiallyResolvedPermission →
    Except Err (AList String PartiallyResolvedPermission)
  | acc, [] => .ok acc
  | acc, (ut, pr) :: rest =>
    match alistFind? acc ut with
    | some pr2 =>
      if pr ≠ pr2 then
        .error (.valueError ("Permission " ++ permission ++ " for user type " ++
          ut ++ " is inconsistent with a previous CSV file"))
      else mergeUserTypes permission acc rest
    | none => mergeUserTypes permission (alistInsert acc ut pr) rest

/-- The outer cell-merge loop of `_resolve_functions` (`permissions.py`
lines 328-336). -/
def mergeDetails :
    AList String (AList String PartiallyResolvedPermission) →
    AList String (AList String PartiallyResolvedPermission) →
    Except Err (AList String (AList String PartiallyResolvedPermission))
  | acc, [] => .ok acc
  | acc, (p, utmap) :: rest =>
    match mergeUserTypes p ((alistFind? acc p).getD []) utmap with
    | .error e => .error e
    | .ok inner2 => mergeDetails (alistInsert acc p inner2) rest

/-- Accumulator of the per-file loop of `_resolve_functions`. -/
structure MergeState where
  permission_is_global : AList String Bool
  known_user_types : List String
  known_perms : List String
  details : AList String (AList String PartiallyResolvedPermission)
deriving DecidableEq, Repr

/-- The merging done for one parsed file inside the `_resolve_functions`
file loop (`permissions.py` lines 317-336). -/
def mergeFile (st : MergeState) (po : ParseOutput) : Except Err MergeState :=
  let kut := setUpdate st.known_user_types po.user_types
  let kp := setUpdate st.known_perms (po.perm_is_global.map (fun kv => kv.1))
  match checkIsGlobalConsistent st.permission_is_global po.perm_is_global with
  | .error e => .error e
  | .ok _ =>
    match mergeDetails st.details po.perm_user_type_details with
    | .error e => .error e
    | .ok det =>
      .ok ⟨alistUpdate st.permission_is_global po.perm_is_global, kut, kp, det⟩

/-- Empty accumulator at the start of `_resolve_functions`. -/
def initMergeState : MergeState := ⟨[], [], [], []⟩

/-- The `_resolve_functions` file loop: parse each CSV file and merge it
into the accumulator. A file is (header field names, data rows). -/
abbrev CsvFile := List String × List (List String)

def buildMerged (env : AppEnv) (rrn : ResolveRuleNameFunc) :
    MergeState → List CsvFile → Except Err MergeState
  | st, [] => .ok st
  | st, (fns, rows) :: rest =>
    match parseCsv env rrn fns rows with
    | .error e => .error e
    | .ok po =>
      match mergeFile st po with
      | .error e => .error e
      | .ok st2 => buildMerged env rrn st2 rest

/-- The evaluator callables built by `_resolve_function`, as data. A
`found` flag records whether `import_string` of the rule function
succeeded; when it did not, the stored callable raises
`NotImplementedError` when invoked. -/
inductive PermFn where
  | yes
  | no
  | allObjects
  | own (app fname : String) (found : Bool)
  | custom (app fname : String) (found : Bool)
deriving DecidableEq, Repr

/-- Whether `import_string(app.rules.fname)` succeeds. -/
abbrev HasRuleFunc := String → String → Bool

/-- Invoking an evaluator callable with `(user, obj)`: `_access_level_yes`,
`_access_level_no`, `_access_level_all`, `_access_level_own`,
`_access_level_custom`, plus the deferred `NotImplementedError` stub used
when the rule import failed. `rules` gives the behaviour of successfully
imported rule functions. -/
def PermFn.call {User Obj : Type}
    (rules : String → String → User → Option Obj → Bool) :
    PermFn → User → Option Obj → Except Err Bool
  | .yes, _, obj =>
    if obj.isSome then
      .error (.runtimeError "yes cannot be used with object-level permissions.")
    else .ok true
  | .no, _, _ => .ok false
  | .allObjects, _, obj =>
    if obj.isNone then
      .error (.runtimeError "all cannot be used with global permissions.")
    else .ok true
  | .own app fname found, user, obj =>
    match obj with
    | none => .error (.runtimeError "own cannot be used with global permissions.")
    | some o =>
      if found then .ok (rules app fname user (some o))
      else .error (.notImplementedError
        ("No implementation of " ++ fname ++ "() in " ++ app ++ ".rules"))
  | .custom app fname found, user, obj =>
    if found then .ok (rules app fname user obj)
    else .error (.notImplementedError
      ("No implementation of " ++ fname ++ "() in " ++ app ++ ".rules"))

/-- `_resolve_function` (`permissions.py` lines 79-151): turn an access
level and function name into an evaluator callable; `none` is the implicit
python `None` fall-through for unrecognised access levels. -/
def resolveFunction (hasRule : HasRuleFunc) (app_label : String)
    (access_level : String) (function_name : String) (is_global : Bool) :
    Except Err (Option PermFn) :=
  if access_level = "yes" then
    if ¬ is_global then
      .error (.runtimeError "yes cannot be used with object-level permissions.")
    else .ok (some .yes)
  else if access_level = "" then .ok (some .no)
  else if access_level = "all" then
    if is_global then
      .error (.runtimeError "all cannot be used with global permissions.")
    else .ok (some .allObjects)
  else if access_level = "own" then
    if is_global then
      .error (.runtimeError "own cannot be used with global permissions.")
    else .ok (some (.own app_label function_name (hasRule app_label function_name)))
  else if access_level = "custom" then
    .ok (some (.custom app_label function_name (hasRule app_label function_name)))
  else .ok none

/-- The body of the per-cell resolution loop of `_resolve_functions`
(`permissions.py` lines 346-391): derive the access level and function
name from the cell text, then call `_resolve_function`, wrapping a
`RuntimeError` with the permission name. Returns `none` when the cell is
skipped (the unrecognised-access-level `warnings.warn` + `continue`
branch), `some f` when a callable (possibly python `None`) is stored. -/
def resolveDetail (hasRule : HasRuleFunc) (permission : String)
    (is_global : Bool) (detail : PartiallyResolvedPermission) :
    Except Err (Option (Option PermFn)) :=
  let access_level := detail.access_level.getD ""
  let model_check : Except Err (Option String) :=
    match detail.model with
    | none =>
      if ¬ is_global then
        .error (.runtimeError "Permissions without Models must be global.")
      else .ok none
    | some m => .ok (some m)
  match model_check with
  | .error e => .error e
  | .ok model_name =>
    let parsed : Except Err (Option (String × String)) :=
      if strStartsWith access_level "own:" then
        let own := strTrim (afterFirstColon access_level)
        if own = "" then
          .error (.runtimeError
            "No function name specified for own: . Remove : or specify a function to call.")
        else .ok (some ("own", pyStr model_name ++ "_own_" ++ own))
      else if access_level = "own" then
        .ok (some ("own", pyStr model_name ++ "_own"))
      else if strStartsWith access_level "custom:" then
        let custom := strTrim (afterFirstColon access_level)
        if custom = "" then
          .error (.runtimeError "No custom function name specified.")
        else .ok (some ("custom", custom))
      else if access_level = "all" ∨ access_level = "" ∨ access_level = "yes" then
        .ok (some (access_level, ""))
      else .ok none
    match parsed with
    | .error e => .error e
    | .ok none => .ok none
    | .ok (some (al, fname)) =>
      match resolveFunction hasRule detail.app_config al fname is_global with
      | .ok f => .ok (some f)
      | .error (.runtimeError e) =>
        .error (.runtimeError (e ++ " Permission: " ++ permission))
      | .error e => .error e

/-- The per-user-type half of the resolution loop of `_resolve_functions`
(`permissions.py` lines 346-391). -/
def resolveUserTypes (hasRule : HasRuleFunc) (permission : String)
    (is_global : Bool) :
    AList String (Option PermFn) →
    AList String PartiallyResolvedPermission →
    Except Err (AList String (Option PermFn))
  | acc, [] => .ok acc
  | acc, (ut, detail) :: rest =>
    match resolveDetail hasRule permission is_global detail with
    | .error e => .error e
    | .ok none => resolveUserTypes hasRule permission is_global acc rest
    | .ok (some f) =>
      resolveUserTypes hasRule permission is_global (alistInsert acc ut f) rest

/-- The per-permission half of the resolution loop of `_resolve_functions`
(`permissions.py` lines 342-391). The `is_global` dict access would raise
`KeyError` (a `LookupError`) for a permission missing from the flag map. -/
def resolveStage (hasRule : HasRuleFunc) (pig : AList String Bool) :
    AList String (AList String (Option PermFn)) →
    AList String (AList String PartiallyResolvedPermission) →
    Except Err (AList String (AList String (Option PermFn)))
  | acc, [] => .ok acc
  | acc, (permission, utmap) :: rest =>
    match alistFind? pig permission with
    | none => .error (.lookupError ("KeyError: " ++ permission))
    | some is_global =>
      match resolveUserTypes hasRule permission is_global
          ((alistFind? acc permission).getD []) utmap with
      | .error e => .error e
      | .ok inner2 => resolveStage hasRule pig (alistInsert acc permission inner2) rest

/-- The tuple returned by `_resolve_functions`. -/
structure ResolvedOutput where
  permission_lookup : AList String (AList String (Option PermFn))
  permission_is_global : AList String Bool
  known_user_types : List String
  known_perms : List String
deriving DecidableEq, Repr

/-- `_resolve_functions` (`permissions.py` lines 281-393): parse and merge
every CSV file, then resolve every cell to an evaluator callable. -/
def resolveFunctions (env : AppEnv) (rrn : ResolveRuleNameFunc)
    (hasRule : HasRuleFunc) (files : List CsvFile) :
    Except Err ResolvedOutput :=
  match buildMerged env rrn initMergeState files with
  | .error e => .error e
  | .ok st =>
    match resolveStage hasRule st.permission_is_global [] st.details with
    | .error e => .error e
    | .ok lookup =>
      .ok ⟨lookup, st.permission_is_global, st.known_user_types, st.known_perms⟩

/-- The auth backend state set up by `CSVPermissionsBackend.__init__`. -/
structure CSVPermissionsBackend where
  permission_lookup : AList String (AList String (Option PermFn))
  permission_is_global : AList String Bool
  known_user_types : List String
  known_perms : List String
deriving DecidableEq, Repr

/-- Build the backend from the `_resolve_functions` result. -/
def mkBackend (r : ResolvedOutput) : CSVPermissionsBackend :=
  ⟨r.permission_lookup, r.permission_is_global, r.known_user_types, r.known_perms⟩

/-- `CSVPermissionsBackend.is_global_perm` (`permissions.py` lines 424-428):
dict lookup with the `KeyError` re-raised as `ValueError`. -/
def CSVPermissionsBackend.is_global_perm (b : CSVPermissionsBackend)
    (perm : String) : Except Err Bool :=
  match alistFind? b.permission_is_global perm with
  | some v => .ok v
  | none => .error (.valueError ("Permission " ++ perm ++ " is not known"))

/-- `CSVPermissionsBackend.has_perm` (`permissions.py` lines 430-456).
`user_type?` is the result of `str(user.get_profile().user_type)`, `none`
when that raised `AttributeError`; `strict` is
`settings.CSV_PERMISSIONS_STRICT`. -/
def CSVPermissionsBackend.has_perm {User Obj : Type}
    (rules : String → String → User → Option Obj → Bool) (strict : Bool)
    (b : CSVPermissionsBackend) (user_type? : Option String) (user : User)
    (perm : String) (obj : Option Obj) : Except Err Bool :=
  match user_type? with
  | none => .ok false
  | some user_type =>
    if strict ∧ perm ∉ b.known_perms then
      .error (.lookupError ("Permission " ++ perm ++ " is not known"))
    else if strict ∧ user_type ∉ b.known_user_types then
      .error (.lookupError ("User Type " ++ user_type ++ " is not known"))
    else
      match alistFind? b.permission_lookup perm with
      | none => .ok false
      | some inner =>
        match alistFind? inner user_type with
        | none => .ok false
        | some none => .error (.runtimeError "NoneType object is not callable")
        | some (some f) => f.call rules user obj

/-! ### Association-list and set lemmas -/

/-- Keys of an association list are pairwise distinct (invariant of every
dict built through `alistInsert`). -/
def alistNodup {α β : Type} (l : AList α β) : Prop :=
  (l.map Prod.fst).Nodup

theorem alistFind?_insert {α β : Type} [DecidableEq α]
    (l : AList α β) (k : α) (v : β) (k' : α) :
    alistFind? (alistInsert l k v) k' =
      if k = k' then some v else alistFind? l k' := by
  induction l with
  | nil => simp [alistInsert, alistFind?]
  | cons p rest ih =>
    obtain ⟨a, b⟩ := p
    by_cases hak : a = k
    · subst hak
      by_cases hk : a = k' <;> simp [alistInsert, alistFind?, hk]
    · by_cases hk : a = k'
      · subst hk
        have hka : ¬ k = a := fun h => hak h.symm
        simp [alistInsert, alistFind?, hak, hka]
      · simp [alistInsert, alistFind?, hak, hk, ih]

theorem alistFind?_isSome_insert {α β : Type} [DecidableEq α]
    (l : AList α β) (k : α) (v : β) (k' : α) :
    (alistFind? (alistInsert l k v) k').isSome ↔
      k = k' ∨ (alistFind? l k').isSome := by
  rw [alistFind?_insert]
  by_cases h : k = k' <;> simp [h]

theorem alistInsert_of_find_eq {α β : Type} [DecidableEq α]
    (l : AList α β) (k : α) (v : β) (h : alistFind? l k = some v) :
    alistInsert l k v = l := by
  induction l with
  | nil => simp [alistFind?] at h
  | cons p rest ih =>
    obtain ⟨a, b⟩ := p
    by_cases hak : a = k
    · subst hak
      simp [alistFind?] at h
      simp [alistInsert, h]
    · simp [alistFind?, hak] at h
      simp [alistInsert, hak, ih h]

theorem alistInsert_of_find_none {α β : Type} [DecidableEq α]
    (l : AList α β) (k : α) (v : β) (h : alistFind? l k = none) :
    alistInsert l k v = l ++ [(k, v)] := by
  induction l with
  | nil => simp [alistInsert]
  | cons p rest ih =>
    obtain ⟨a, b⟩ := p
    by_cases hak : a = k
    · simp [alistFind?, hak] at h
    · simp [alistFind?, hak] at h
      simp [alistInsert, hak, ih h]

theorem alistFind?_append {α β : Type} [DecidableEq α]
    (l₁ l₂ : AList α β) (k : α) :
    alistFind? (l₁ ++ l₂) k =
      match alistFind? l₁ k with
      | some v => some v
      | none => alistFind? l₂ k := by
  induction l₁ with
  | nil => simp [alistFind?]
  | cons p rest ih =>
    obtain ⟨a, b⟩ := p
    by_cases hak : a = k <;> simp [alistFind?, hak, ih]

theorem alistNodup_nil {α β : Type} : alistNodup ([] : AList α β) := by
  simp [alistNodup]

theorem mem_keys_insert {α β : Type} [DecidableEq α]
    (l : AList α β) (k : α) (v : β) (x : α) :
    x ∈ (alistInsert l k v).map Prod.fst ↔ x ∈ l.map Prod.fst ∨ x = k := by
  induction l with
  | nil => simp [alistInsert]
  | cons p rest ih =>
    obtain ⟨a, b⟩ := p
    by_cases hak : a = k
    · subst hak
      simp [alistInsert]
      tauto
    · simp [alistInsert, hak, ih]
      tauto

theorem alistNodup_insert {α β : Type} [DecidableEq α]
    (l : AList α β) (k : α) (v : β) (h : alistNodup l) :
    alistNodup (alistInsert l k v) := by
  induction l with
  | nil => simp [alistInsert, alistNodup]
  | cons p rest ih =>
    obtain ⟨a, b⟩ := p
    simp only [alistNodup, List.map_cons, List.nodup_cons] at h
    by_cases hak : a = k
    · subst hak
      simp only [alistInsert, if_pos rfl]
      simpa [alistNodup] using h
    · have hrest := ih h.2
      simp only [alistInsert, if_neg hak]
      simp only [alistNodup, List.map_cons, List.nodup_cons]
      refine ⟨?_, hrest⟩
      intro hmem
      rcases (mem_keys_insert rest k v a).mp hmem with h1 | h1
      · exact h.1 h1
      · exact hak h1

theorem alistFind?_of_mem_nodup {α β : Type} [DecidableEq α]
    (l : AList α β) (k : α) (v : β) (hn : alistNodup l) (hm : (k, v) ∈ l) :
    alistFind? l k = some v := by
  induction l with
  | nil => simp at hm
  | cons p rest ih =>
    obtain ⟨a, b⟩ := p
    simp only [alistNodup, List.map_cons, List.nodup_cons] at hn
    rcases List.mem_cons.mp hm with h1 | h1
    · rw [← h1]
      simp [alistFind?]
    · by_cases hak : a = k
      · exfalso
        apply hn.1
        rw [hak]
        exact List.mem_map_of_mem Prod.fst h1
      · simp [alistFind?, hak, ih hn.2 h1]

theorem alistFind?_isSome_mem_keys {α β : Type} [DecidableEq α]
    (l : AList α β) (k : α) (h : (alistFind? l k).isSome) :
    k ∈ l.map Prod.fst := by
  induction l with
  | nil => simp [alistFind?] at h
  | cons p rest ih =>
    obtain ⟨a, b⟩ := p
    by_cases hak : a = k
    · simp [hak]
    · simp [alistFind?, hak] at h
      simp [ih h]

theorem mem_setAdd {α : Type} [DecidableEq α] (s : List α) (x y : α) :
    y ∈ setAdd s x ↔ y ∈ s ∨ y = x := by
  by_cases h : x ∈ s
  · simp [setAdd, h]
    intro hyx
    subst hyx
    exact h
  · simp [setAdd, h]

theorem mem_setUpdate {α : Type} [DecidableEq α] (s xs : List α) (y : α) :
    y ∈ setUpdate s xs ↔ y ∈ s ∨ y ∈ xs := by
  induction xs generalizing s with
  | nil => simp [setUpdate]
  | cons x rest ih =>
    show y ∈ setUpdate (setAdd s x) rest ↔ _
    rw [ih, mem_setAdd]
    constructor
    · rintro ((h | h) | h)
      · exact Or.inl h
      · exact Or.inr (by simp [h])
      · exact Or.inr (by simp [h])
    · rintro (h | h)
      · exact Or.inl (Or.inl h)
      · rcases List.mem_cons.mp h with h1 | h1
        · exact Or.inl (Or.inr h1)
        · exact Or.inr h1

theorem setUpdate_of_subset {α : Type} [DecidableEq α] (s xs : List α)
    (h : ∀ x ∈ xs, x ∈ s) : setUpdate s xs = s := by
  induction xs with
  | nil => rfl
  | cons x rest ih =>
    show setUpdate (setAdd s x) rest = s
    have hx : setAdd s x = s := by simp [setAdd, h x (by simp)]
    rw [hx]
    exact ih (fun y hy => h y (by simp [hy]))

/-! ### Merge-stage lemmas -/

theorem alistUpdate_fresh {α β : Type} [DecidableEq α]
    (l₂ : AList α β) (acc : AList α β)
    (h : ∀ kv ∈ l₂, alistFind? acc kv.1 = none) (hn : alistNodup l₂) :
    alistUpdate acc l₂ = acc ++ l₂ := by
  induction l₂ generalizing acc with
  | nil => simp [alistUpdate]
  | cons kv rest ih =>
    obtain ⟨k, v⟩ := kv
    show alistUpdate (alistInsert acc k v) rest = acc ++ (k, v) :: rest
    rw [alistInsert_of_find_none acc k v (h (k, v) (by simp))]
    simp only [alistNodup, List.map_cons, List.nodup_cons] at hn
    rw [ih (acc ++ [(k, v)])]
    · simp
    · intro kv2 hkv2
      rw [alistFind?_append]
      rw [h kv2 (by simp [hkv2])]
      have : ¬ k = kv2.1 := by
        intro hcontra
        apply hn.1
        rw [hcontra]
        exact List.mem_map_of_mem Prod.fst hkv2
      simp [alistFind?, this]
    · exact hn.2

theorem alistUpdate_self {α β : Type} [DecidableEq α]
    (l₂ : AList α β) (acc : AList α β)
    (h : ∀ kv ∈ l₂, alistFind? acc kv.1 = some kv.2) :
    alistUpdate acc l₂ = acc := by
  induction l₂ generalizing acc with
  | nil => rfl
  | cons kv rest ih =>
    obtain ⟨k, v⟩ := kv
    show alistUpdate (alistInsert acc k v) rest = acc
    rw [alistInsert_of_find_eq acc k v (h (k, v) (by simp))]
    exact ih acc (fun kv2 hkv2 => h kv2 (by simp [hkv2]))

theorem checkIsGlobalConsistent_ok (l : AList String Bool)
    (acc : AList String Bool)
    (h : ∀ kv ∈ l, alistFind? acc kv.1 = none ∨ alistFind? acc kv.1 = some kv.2) :
    checkIsGlobalConsistent acc l = .ok () := by
  induction l with
  | nil => rfl
  | cons kv rest ih =>
    obtain ⟨k, v⟩ := kv
    rcases h (k, v) (by simp) with h1 | h1 <;>
      simp [checkIsGlobalConsistent, h1] <;>
      exact ih (fun kv2 hkv2 => h kv2 (by simp [hkv2]))

theorem mergeUserTypes_fresh (permission : String)
    (um : AList String PartiallyResolvedPermission)
    (acc : AList String PartiallyResolvedPermission)
    (h : ∀ kv ∈ um, alistFind? acc kv.1 = none) (hn : alistNodup um) :
    mergeUserTypes permission acc um = .ok (acc ++ um) := by
  induction um generalizing acc with
  | nil => simp [mergeUserTypes]
  | cons kv rest ih =>
    obtain ⟨ut, pr⟩ := kv
    simp only [mergeUserTypes, h (ut, pr) (by simp)]
    rw [alistInsert_of_find_none acc ut pr (h (ut, pr) (by simp))]
    simp only [alistNodup, List.map_cons, List.nodup_cons] at hn
    rw [ih (acc ++ [(ut, pr)])]
    · simp
    · intro kv2 hkv2
      rw [alistFind?_append]
      rw [h kv2 (by simp [hkv2])]
      have : ¬ ut = kv2.1 := by
        intro hcontra
        apply hn.1
        rw [hcontra]
        exact List.mem_map_of_mem Prod.fst hkv2
      simp [alistFind?, this]
    · exact hn.2

theorem mergeUserTypes_self (permission : String)
    (um : AList String PartiallyResolvedPermission)
    (acc : AList String PartiallyResolvedPermission)
    (h : ∀ kv ∈ um, alistFind? acc kv.1 = some kv.2) :
    mergeUserTypes permission acc um = .ok acc := by
  induction um with
  | nil => rfl
  | cons kv rest ih =>
    obtain ⟨ut, pr⟩ := kv
    simp only [mergeUserTypes, h (ut, pr) (by simp), ne_eq]
    rw [if_neg (by simp)]
    exact ih (fun kv2 hkv2 => h kv2 (by simp [hkv2]))

theorem mergeDetails_fresh
    (dets : AList String (AList String PartiallyResolvedPermission))
    (acc : AList String (AList String PartiallyResolvedPermission))
    (h : ∀ kv ∈ dets, alistFind? acc kv.1 = none) (hn : alistNodup dets)
    (hi : ∀ kv ∈ dets, alistNodup kv.2) :
    mergeDetails acc dets = .ok (acc ++ dets) := by
  induction dets generalizing acc with
  | nil => simp [mergeDetails]
  | cons kv rest ih =>
    obtain ⟨p, um⟩ := kv
    simp only [mergeDetails, h (p, um) (by simp), Option.getD_none]
    rw [mergeUserTypes_fresh p um [] (by simp [alistFind?]) (hi (p, um) (by simp))]
    simp only [List.nil_append]
    rw [alistInsert_of_find_none acc p um (h (p, um) (by simp))]
    simp only [alistNodup, List.map_cons, List.nodup_cons] at hn
    rw [ih (acc ++ [(p, um)])]
    · simp
    · intro kv2 hkv2
      rw [alistFind?_append]
      rw [h kv2 (by simp [hkv2])]
      have : ¬ p = kv2.1 := by
        intro hcontra
        apply hn.1
        rw [hcontra]
        exact List.mem_map_of_mem Prod.fst hkv2
      simp [alistFind?, this]
    · exact hn.2
    · exact fun kv2 hkv2 => hi kv2 (by simp [hkv2])

theorem mergeDetails_self
    (dets : AList String (AList String PartiallyResolvedPermission))
    (acc : AList String (AList String PartiallyResolvedPermission))
    (h : ∀ kv ∈ dets, alistFind? acc kv.1 = some kv.2)
    (hi : ∀ kv ∈ dets, alistNodup kv.2) :
    mergeDetails acc dets = .ok acc := by
  induction dets with
  | nil => rfl
  | cons kv rest ih =>
    obtain ⟨p, um⟩ := kv
    simp only [mergeDetails, h (p, um) (by simp), Option.getD_some]
    rw [mergeUserTypes_self p um um
      (fun kv2 hkv2 => alistFind?_of_mem_nodup um kv2.1 kv2.2 (hi (p, um) (by simp)) hkv2)]
    show mergeDetails (alistInsert acc p um) rest = Except.ok acc
    rw [alistInsert_of_find_eq acc p um (h (p, um) (by simp))]
    exact ih (fun kv2 hkv2 => h kv2 (by simp [hkv2]))
      (fun kv2 hkv2 => hi kv2 (by simp [hkv2]))

/-! ### Parse invariants -/

theorem foldlInsert_nodup {β : Type} (g : String → β) (uts : List String)
    (acc : AList String β) (h : alistNodup acc) :
    alistNodup (uts.foldl (fun a u => alistInsert a u (g u)) acc) := by
  induction uts generalizing acc with
  | nil => exact h
  | cons u rest ih =>
    exact ih (alistInsert acc u (g u)) (alistNodup_insert acc u (g u) h)

theorem foldlInsert_keys {β : Type} (g : String → β) (uts : List String)
    (acc : AList String β) (k : String)
    (h : (alistFind? (uts.foldl (fun a u => alistInsert a u (g u)) acc) k).isSome) :
    (alistFind? acc k).isSome ∨ k ∈ uts := by
  induction uts generalizing acc with
  | nil => exact Or.inl h
  | cons u rest ih =>
    rcases ih (alistInsert acc u (g u)) h with h1 | h1
    · rcases (alistFind?_isSome_insert acc u (g u) k).mp h1 with h2 | h2
      · exact Or.inr (by simp [← h2])
      · exact Or.inl h2
    · exact Or.inr (by simp [h1])

/-- Structural invariants of the `_parse_csv` accumulator: both dicts have
distinct keys, they share the same key set, and every inner dict has
distinct keys all drawn from the header's user types. -/
structure ParseInv (user_types : List String) (st : ParseState) : Prop where
  pig_nodup : alistNodup st.perm_is_global
  det_nodup : alistNodup st.perm_user_type_details
  keys_iff : ∀ p, (alistFind? st.perm_user_type_details p).isSome ↔
      (alistFind? st.perm_is_global p).isSome
  inner_nodup : ∀ p inner, alistFind? st.perm_user_type_details p = some inner →
      alistNodup inner
  inner_keys : ∀ p inner ut, alistFind? st.perm_user_type_details p = some inner →
      (alistFind? inner ut).isSome → ut ∈ user_types

theorem applyRow_inv (rrn : ResolveRuleNameFunc) (user_types : List String)
    (st : ParseState) (act : RowAction) (h : ParseInv user_types st) :
    ParseInv user_types (applyRow rrn user_types st act) := by
  cases act with
  | skip => exact ⟨h.pig_nodup, h.det_nodup, h.keys_iff, h.inner_nodup, h.inner_keys⟩
  | add app_label model action is_global row =>
    set rule := rrn app_label model action is_global with hrule
    set g : String → PartiallyResolvedPermission := fun ut =>
      { app_config := app_label, model := model, action := action,
        access_level := (alistFind? row ut).join } with hg
    by_cases hc : alistContains st.perm_is_global rule
    · have hdetSome : (alistFind? st.perm_user_type_details rule).isSome :=
        (h.keys_iff rule).mpr hc
      obtain ⟨inner0, hinner0⟩ := Option.isSome_iff_exists.mp hdetSome
      have happ : applyRow rrn user_types st (.add app_label model action is_global row) =
          ⟨false, st.perm_is_global,
            alistInsert st.perm_user_type_details rule
              (user_types.foldl (fun a u => alistInsert a u (g u)) inner0)⟩ := by
        simp only [applyRow, ← hrule, hc, if_pos, hinner0, Option.getD_some, ← hg]
      rw [happ]
      refine ⟨h.pig_nodup, alistNodup_insert _ _ _ h.det_nodup, ?_, ?_, ?_⟩
      · intro p
        rw [alistFind?_isSome_insert]
        constructor
        · rintro (h1 | h1)
          · rw [← h1]
            exact hc
          · exact (h.keys_iff p).mp h1
        · intro h1
          exact Or.inr ((h.keys_iff p).mpr h1)
      · intro p inner hfind
        rw [alistFind?_insert] at hfind
        by_cases hp : rule = p
        · rw [if_pos hp] at hfind
          cases hfind
          exact foldlInsert_nodup g user_types inner0
            (h.inner_nodup rule inner0 hinner0)
        · rw [if_neg hp] at hfind
          exact h.inner_nodup p inner hfind
      · intro p inner ut hfind hut
        rw [alistFind?_insert] at hfind
        by_cases hp : rule = p
        · rw [if_pos hp] at hfind
          cases hfind
          rcases foldlInsert_keys g user_types inner0 ut hut with h1 | h1
          · exact h.inner_keys rule inner0 ut hinner0 h1
          · exact h1
        · rw [if_neg hp] at hfind
          exact h.inner_keys p inner ut hfind hut
    · have hdetNone : alistFind? st.perm_user_type_details rule = none := by
        rcases hfd : alistFind? st.perm_user_type_details rule with _ | inner
        · rfl
        · exact absurd ((h.keys_iff rule).mp (by simp [hfd])) hc
      have hfindInserted :
          alistFind? (alistInsert st.perm_user_type_details rule []) rule = some [] := by
        rw [alistFind?_insert, if_pos rfl]
      have happ : applyRow rrn user_types st (.add app_label model action is_global row) =
          ⟨false, alistInsert st.perm_is_global rule is_global,
            alistInsert (alistInsert st.perm_user_type_details rule []) rule
              (user_types.foldl (fun a u => alistInsert a u (g u)) [])⟩ := by
        simp only [applyRow, ← hrule, hc, if_neg, Bool.false_eq_true, if_false,
          hfindInserted, Option.getD_some, ← hg]
      rw [happ]
      refine ⟨alistNodup_insert _ _ _ h.pig_nodup, ?_, ?_, ?_, ?_⟩
      · exact alistNodup_insert _ _ _ (alistNodup_insert _ _ _ h.det_nodup)
      · intro p
        rw [alistFind?_isSome_insert, alistFind?_isSome_insert, alistFind?_isSome_insert]
        constructor
        · rintro (h1 | h1 | h1)
          · exact Or.inl h1
          · exact Or.inl h1
          · exact Or.inr ((h.keys_iff p).mp h1)
        · rintro (h1 | h1)
          · exact Or.inl h1
          · exact Or.inr (Or.inr ((h.keys_iff p).mpr h1))
      · intro p inner hfind
        rw [alistFind?_insert] at hfind
        by_cases hp : rule = p
        · rw [if_pos hp] at hfind
          cases hfind
          exact foldlInsert_nodup g user_types [] alistNodup_nil
        · rw [if_neg hp, alistFind?_insert, if_neg hp] at hfind
          exact h.inner_nodup p inner hfind
      · intro p inner ut hfind hut
        rw [alistFind?_insert] at hfind
        by_cases hp : rule = p
        · rw [if_pos hp] at hfind
          cases hfind
          rcases foldlInsert_keys g user_types [] ut hut with h1 | h1
          · simp [alistFind?] at h1
          · exact h1
        · rw [if_neg hp, alistFind?_insert, if_neg hp] at hfind
          exact h.inner_keys p inner ut hfind hut

theorem parseRows_inv (env : AppEnv) (rrn : ResolveRuleNameFunc)
    (fns uts : List String) (rows : List (List String)) (st st2 : ParseState)
    (h : ParseInv uts st)
    (he : parseRows env rrn fns uts st rows = .ok st2) : ParseInv uts st2 := by
  induction rows generalizing st with
  | nil =>
    cases he
    exact h
  | cons r rest ih =>
    unfold parseRows processRow at he
    rcases hcr : classifyRow env fns r with e | act
    · rw [hcr] at he
      cases he
    · rw [hcr] at he
      exact ih (applyRow rrn uts st act) (applyRow_inv rrn uts st act h) he

/-- The parse invariants, restated for the `_parse_csv` result. -/
structure ParseOutInv (po : ParseOutput) : Prop where
  pig_nodup : alistNodup po.perm_is_global
  det_nodup : alistNodup po.perm_user_type_details
  keys_iff : ∀ p, (alistFind? po.perm_user_type_details p).isSome ↔
      (alistFind? po.perm_is_global p).isSome
  inner_nodup : ∀ p inner, alistFind? po.perm_user_type_details p = some inner →
      alistNodup inner
  inner_keys : ∀ p inner ut, alistFind? po.perm_user_type_details p = some inner →
      (alistFind? inner ut).isSome → ut ∈ po.user_types

theorem parseCsv_inv (env : AppEnv) (rrn : ResolveRuleNameFunc)
    (fns : List String) (rows : List (List String)) (po : ParseOutput)
    (h : parseCsv env rrn fns rows = .ok po) : ParseOutInv po := by
  unfold parseCsv at h
  split at h
  · cases h
  · dsimp only at h
    split at h
    · cases h
    · rcases hpr : parseRows env rrn fns (fns.drop 4) ⟨true, [], []⟩ rows with e | st
      · rw [hpr] at h
        cases h
      · rw [hpr] at h
        dsimp only at h
        rcases hwe : st.was_empty with _ | _
        case true =>
          rw [if_pos hwe] at h
          cases h
        case false =>
          rw [if_neg (by simp [hwe])] at h
          cases h
          have hinv : ParseInv (fns.drop 4) st :=
            parseRows_inv env rrn fns (fns.drop 4) rows ⟨true, [], []⟩ st
              ⟨alistNodup_nil, alistNodup_nil,
                by intro p; simp [alistFind?],
                by intro p inner hf; simp [alistFind?] at hf,
                by intro p inner ut hf; simp [alistFind?] at hf⟩ hpr
          exact ⟨hinv.pig_nodup, hinv.det_nodup, hinv.keys_iff,
            hinv.inner_nodup, hinv.inner_keys⟩

/-! ### Merging a parsed file into the empty accumulator, and re-merging it -/

theorem mergeFile_init (po : ParseOutput) (hinv : ParseOutInv po) :
    mergeFile initMergeState po = .ok
      ⟨po.perm_is_global, setUpdate [] po.user_types,
        setUpdate [] (po.perm_is_global.map (fun kv => kv.1)),
        po.perm_user_type_details⟩ := by
  have hmem : ∀ kv ∈ po.perm_user_type_details, alistNodup kv.2 := by
    intro kv hkv
    exact hinv.inner_nodup kv.1 kv.2
      (alistFind?_of_mem_nodup _ kv.1 kv.2 hinv.det_nodup hkv)
  unfold mergeFile initMergeState
  rw [checkIsGlobalConsistent_ok po.perm_is_global []
    (by intro kv hkv; left; rfl)]
  rw [mergeDetails_fresh po.perm_user_type_details []
    (by intro kv hkv; rfl) hinv.det_nodup hmem]
  rw [alistUpdate_fresh po.perm_is_global []
    (by intro kv hkv; rfl) hinv.pig_nodup]
  simp

theorem mergeFile_again (po : ParseOutput) (hinv : ParseOutInv po)
    (U K : List String)
    (hU : ∀ x ∈ po.user_types, x ∈ U)
    (hK : ∀ x ∈ po.perm_is_global.map Prod.fst, x ∈ K) :
    mergeFile ⟨po.perm_is_global, U, K, po.perm_user_type_details⟩ po =
      .ok ⟨po.perm_is_global, U, K, po.perm_user_type_details⟩ := by
  have hfindPig : ∀ kv ∈ po.perm_is_global, alistFind? po.perm_is_global kv.1 = some kv.2 :=
    fun kv hkv => alistFind?_of_mem_nodup _ kv.1 kv.2 hinv.pig_nodup hkv
  have hfindDet : ∀ kv ∈ po.perm_user_type_details,
      alistFind? po.perm_user_type_details kv.1 = some kv.2 :=
    fun kv hkv => alistFind?_of_mem_nodup _ kv.1 kv.2 hinv.det_nodup hkv
  have hmem : ∀ kv ∈ po.perm_user_type_details, alistNodup kv.2 :=
    fun kv hkv => hinv.inner_nodup kv.1 kv.2 (hfindDet kv hkv)
  unfold mergeFile
  rw [checkIsGlobalConsistent_ok po.perm_is_global po.perm_is_global
    (fun kv hkv => Or.inr (hfindPig kv hkv))]
  rw [mergeDetails_self po.perm_user_type_details po.perm_user_type_details hfindDet hmem]
  rw [alistUpdate_self po.perm_is_global po.perm_is_global hfindPig]
  have hU2 : setUpdate U po.user_types = U := setUpdate_of_subset U po.user_types hU
  have hK2 : setUpdate K (po.perm_is_global.map (fun kv => kv.1)) = K :=
    setUpdate_of_subset K _ (by simpa using hK)
  simp [hU2, hK2]

/-- C5: merging the same valid source twice never raises a conflict and
yields exactly the same lookup table, is-global map, known-permission set
and known-user-type set as merging it once. -/
theorem c5_duplicate_source_merge (env : AppEnv) (rrn : ResolveRuleNameFunc)
    (hr : HasRuleFunc) (fns : List String) (rows : List (List String))
    (pa : ParseOutput) (h : parseCsv env rrn fns rows = .ok pa) :
    resolveFunctions env rrn hr [(fns, rows), (fns, rows)] =
      resolveFunctions env rrn hr [(fns, rows)] ∧
    ∃ st, buildMerged env rrn initMergeState [(fns, rows), (fns, rows)] = .ok st := by
  have hinv := parseCsv_inv env rrn fns rows pa h
  set st1 : MergeState :=
    ⟨pa.perm_is_global, setUpdate [] pa.user_types,
      setUpdate [] (pa.perm_is_global.map (fun kv => kv.1)),
      pa.perm_user_type_details⟩ with hst1
  have hb1 : buildMerged env rrn initMergeState [(fns, rows)] = .ok st1 := by
    unfold buildMerged
    rw [h]
    dsimp only
    rw [mergeFile_init pa hinv]
    rfl
  have hagain : mergeFile st1 pa = .ok st1 := by
    rw [hst1]
    exact mergeFile_again pa hinv _ _
      (fun x hx => (mem_setUpdate [] pa.user_types x).mpr (Or.inr hx))
      (fun x hx => (mem_setUpdate [] _ x).mpr (Or.inr hx))
  have hb2 : buildMerged env rrn initMergeState [(fns, rows), (fns, rows)] = .ok st1 := by
    unfold buildMerged
    rw [h]
    dsimp only
    rw [mergeFile_init pa hinv, ← hst1]
    show buildMerged env rrn st1 [(fns, rows)] = .ok st1
    unfold buildMerged
    rw [h]
    dsimp only
    rw [hagain]
    rfl
  constructor
  · unfold resolveFunctions
    rw [hb1, hb2]
  · exact ⟨st1, hb2⟩

/-! ### Key-tracking lemmas for the merge and resolution stages -/

theorem alistFind?_isSome_of_mem {α β : Type} [DecidableEq α]
    (l : AList α β) (kv : α × β) (h : kv ∈ l) : (alistFind? l kv.1).isSome := by
  induction l with
  | nil => simp at h
  | cons p rest ih =>
    obtain ⟨a, b⟩ := p
    by_cases hak : a = kv.1
    · simp [alistFind?, hak]
    · rcases List.mem_cons.mp h with h1 | h1
      · rw [h1] at hak
        simp at hak
      · simp [alistFind?, hak, ih h1]

theorem mergeUserTypes_keys_pred (P : String → Prop) (permission : String)
    (um : AList String PartiallyResolvedPermission)
    (acc out : AList String PartiallyResolvedPermission)
    (h : mergeUserTypes permission acc um = .ok out)
    (hacc : ∀ ut, (alistFind? acc ut).isSome → P ut)
    (hum : ∀ kv ∈ um, P kv.1) :
    ∀ ut, (alistFind? out ut).isSome → P ut := by
  induction um generalizing acc with
  | nil =>
    cases h
    exact hacc
  | cons kv rest ih =>
    obtain ⟨u, pr⟩ := kv
    unfold mergeUserTypes at h
    rcases hf : alistFind? acc u with _ | pr2
    · rw [hf] at h
      refine ih (alistInsert acc u pr) h ?_ (fun kv2 hkv2 => hum kv2 (by simp [hkv2]))
      intro ut hut
      rcases (alistFind?_isSome_insert acc u pr ut).mp hut with h1 | h1
      · rw [← h1]
        exact hum (u, pr) (by simp)
      · exact hacc ut h1
    · rw [hf] at h
      dsimp only at h
      by_cases hne : pr = pr2
      · rw [if_neg (by simp [hne])] at h
        exact ih acc h hacc (fun kv2 hkv2 => hum kv2 (by simp [hkv2]))
      · rw [if_pos (by simp [hne])] at h
        cases h

theorem mem_of_alistFind?_eq {α β : Type} [DecidableEq α]
    (l : AList α β) (k : α) (v : β) (h : alistFind? l k = some v) : (k, v) ∈ l := by
  induction l with
  | nil => simp [alistFind?] at h
  | cons p rest ih =>
    obtain ⟨a, b⟩ := p
    by_cases hak : a = k
    · subst hak
      simp [alistFind?] at h
      simp [h]
    · simp [alistFind?, hak] at h
      simp [ih h]

theorem mem_alistInsert {α β : Type} [DecidableEq α]
    (l : AList α β) (k : α) (v : β) (kv : α × β) (h : kv ∈ alistInsert l k v) :
    kv ∈ l ∨ kv = (k, v) := by
  induction l with
  | nil =>
    simp [alistInsert] at h
    simp [h]
  | cons p rest ih =>
    obtain ⟨a, b⟩ := p
    by_cases hak : a = k
    · subst hak
      simp [alistInsert] at h
      rcases h with h1 | h1
      · simp [h1]
      · simp [h1]
    · simp [alistInsert, hak] at h
      rcases h with h1 | h1
      · simp [h1]
      · rcases ih h1 with h2 | h2
        · simp [h2]
        · simp [h2]

theorem mergeDetails_keys_pred (P : String → Prop)
    (dets : AList String (AList String PartiallyResolvedPermission))
    (acc out : AList String (AList String PartiallyResolvedPermission))
    (h : mergeDetails acc dets = .ok out)
    (hacc : ∀ kv ∈ acc, P kv.1)
    (hdets : ∀ kv ∈ dets, P kv.1) :
    ∀ kv ∈ out, P kv.1 := by
  induction dets generalizing acc with
  | nil =>
    cases h
    exact hacc
  | cons kv rest ih =>
    obtain ⟨q, um⟩ := kv
    unfold mergeDetails at h
    rcases hm : mergeUserTypes q ((alistFind? acc q).getD []) um with e | inner2
    · rw [hm] at h
      cases h
    · rw [hm] at h
      refine ih (alistInsert acc q inner2) h ?_ (fun kv2 hkv2 => hdets kv2 (by simp [hkv2]))
      intro kv2 hkv2
      rcases mem_alistInsert acc q inner2 kv2 hkv2 with h1 | h1
      · exact hacc kv2 h1
      · rw [h1]
        exact hdets (q, um) (by simp)

theorem mergeDetails_inner_pred (P : String → Prop)
    (dets : AList String (AList String PartiallyResolvedPermission))
    (acc out : AList String (AList String PartiallyResolvedPermission))
    (h : mergeDetails acc dets = .ok out)
    (hacc : ∀ kv ∈ acc, ∀ ut, (alistFind? kv.2 ut).isSome → P ut)
    (hdets : ∀ kv ∈ dets, ∀ ut, (alistFind? kv.2 ut).isSome → P ut) :
    ∀ kv ∈ out, ∀ ut, (alistFind? kv.2 ut).isSome → P ut := by
  induction dets generalizing acc with
  | nil =>
    cases h
    exact hacc
  | cons kv rest ih =>
    obtain ⟨q, um⟩ := kv
    unfold mergeDetails at h
    rcases hm : mergeUserTypes q ((alistFind? acc q).getD []) um with e | inner2
    · rw [hm] at h
      cases h
    · rw [hm] at h
      refine ih (alistInsert acc q inner2) h ?_
        (fun kv2 hkv2 => hdets kv2 (by simp [hkv2]))
      intro kv2 hkv2 ut hut
      rcases mem_alistInsert acc q inner2 kv2 hkv2 with h1 | h1
      · exact hacc kv2 h1 ut hut
      · rw [h1] at hut
        refine mergeUserTypes_keys_pred P q um ((alistFind? acc q).getD []) inner2 hm
          ?_ ?_ ut hut
        · intro ut2 hut2
          rcases hag : alistFind? acc q with _ | i0
          · rw [hag] at hut2
            simp [alistFind?] at hut2
          · rw [hag] at hut2
            exact hacc (q, i0) (mem_of_alistFind?_eq acc q i0 hag) ut2 hut2
        · intro kv3 hkv3
          exact hdets (q, um) (by simp) kv3.1 (alistFind?_isSome_of_mem um kv3 hkv3)

theorem resolveUserTypes_keys_pred (P : String → Prop) (hr : HasRuleFunc)
    (permission : String) (ig : Bool)
    (um : AList String PartiallyResolvedPermission)
    (acc out : AList String (Option PermFn))
    (h : resolveUserTypes hr permission ig acc um = .ok out)
    (hacc : ∀ ut, (alistFind? acc ut).isSome → P ut)
    (hum : ∀ kv ∈ um, P kv.1) :
    ∀ ut, (alistFind? out ut).isSome → P ut := by
  induction um generalizing acc with
  | nil =>
    cases h
    exact hacc
  | cons kv rest ih =>
    obtain ⟨u, detail⟩ := kv
    unfold resolveUserTypes at h
    rcases hrd : resolveDetail hr permission ig detail with e | f
    · rw [hrd] at h
      cases h
    · rw [hrd] at h
      rcases f with _ | f
      · exact ih acc h hacc (fun kv2 hkv2 => hum kv2 (by simp [hkv2]))
      · refine ih (alistInsert acc u f) h ?_ (fun kv2 hkv2 => hum kv2 (by simp [hkv2]))
        intro ut hut
        rcases (alistFind?_isSome_insert acc u f ut).mp hut with h1 | h1
        · rw [← h1]
          exact hum (u, detail) (by simp)
        · exact hacc ut h1

theorem resolveStage_keys_pred (P : String → Prop) (hr : HasRuleFunc)
    (pig : AList String Bool)
    (dets : AList String (AList String PartiallyResolvedPermission))
    (acc out : AList String (AList String (Option PermFn)))
    (h : resolveStage hr pig acc dets = .ok out)
    (hacc : ∀ p, (alistFind? acc p).isSome → P p)
    (hdets : ∀ kv ∈ dets, P kv.1) :
    ∀ p, (alistFind? out p).isSome → P p := by
  induction dets generalizing acc with
  | nil =>
    cases h
    exact hacc
  | cons kv rest ih =>
    obtain ⟨q, um⟩ := kv
    unfold resolveStage at h
    rcases hg : alistFind? pig q with _ | ig
    · rw [hg] at h
      cases h
    · rw [hg] at h
      dsimp only at h
      rcases hru : resolveUserTypes hr q ig ((alistFind? acc q).getD []) um with e | inner2
      · rw [hru] at h
        cases h
      · rw [hru] at h
        refine ih (alistInsert acc q inner2) h ?_
          (fun kv2 hkv2 => hdets kv2 (by simp [hkv2]))
        intro p hp
        rcases (alistFind?_isSome_insert acc q inner2 p).mp hp with h1 | h1
        · rw [← h1]
          exact hdets (q, um) (by simp)
        · exact hacc p h1

theorem resolveStage_inner_pred (P : String → Prop) (hr : HasRuleFunc)
    (pig : AList String Bool)
    (dets : AList String (AList String PartiallyResolvedPermission))
    (acc out : AList String (AList String (Option PermFn)))
    (h : resolveStage hr pig acc dets = .ok out)
    (hacc : ∀ p inner ut, alistFind? acc p = some inner →
      (alistFind? inner ut).isSome → P ut)
    (hdets : ∀ kv ∈ dets, ∀ ut, (alistFind? kv.2 ut).isSome → P ut) :
    ∀ p inner ut, alistFind? out p = some inner →
      (alistFind? inner ut).isSome → P ut := by
  induction dets generalizing acc with
  | nil =>
    cases h
    exact hacc
  | cons kv rest ih =>
    obtain ⟨q, um⟩ := kv
    unfold resolveStage at h
    rcases hg : alistFind? pig q with _ | ig
    · rw [hg] at h
      cases h
    · rw [hg] at h
      dsimp only at h
      rcases hru : resolveUserTypes hr q ig ((alistFind? acc q).getD []) um with e | inner2
      · rw [hru] at h
        cases h
      · rw [hru] at h
        refine ih (alistInsert acc q inner2) h ?_
          (fun kv2 hkv2 => hdets kv2 (by simp [hkv2]))
        intro p inner ut hfind hut
        rw [alistFind?_insert] at hfind
        by_cases hq : q = p
        · rw [if_pos hq] at hfind
          cases hfind
          refine resolveUserTypes_keys_pred P hr q ig um ((alistFind? acc q).getD [])
            inner2 hru ?_ ?_ ut hut
          · intro ut2 hut2
            rcases hag : alistFind? acc q with _ | i0
            · rw [hag] at hut2
              simp [alistFind?] at hut2
            · rw [hag] at hut2
              exact hacc q i0 ut2 hag hut2
          · intro kv2 hkv2
            exact hdets (q, um) (by simp) kv2.1 (alistFind?_isSome_of_mem um kv2 hkv2)
        · rw [if_neg hq] at hfind
          exact hacc p inner ut hfind hut

/-- The coherence invariant carried by the `_resolve_functions` file loop:
every permission that has cells is a known permission, and every user type
that has a cell is a known user type. -/
structure MergeInv (st : MergeState) : Prop where
  det_keys : ∀ kv ∈ st.details, kv.1 ∈ st.known_perms
  inner_keys : ∀ kv ∈ st.details, ∀ ut, (alistFind? kv.2 ut).isSome →
      ut ∈ st.known_user_types

theorem mergeFile_inv (st st2 : MergeState) (po : ParseOutput)
    (hst : MergeInv st) (hpo : ParseOutInv po)
    (h : mergeFile st po = .ok st2) : MergeInv st2 := by
  unfold mergeFile at h
  rcases hc : checkIsGlobalConsistent st.permission_is_global po.perm_is_global with e | u
  · rw [hc] at h
    cases h
  · rw [hc] at h
    rcases hm : mergeDetails st.details po.perm_user_type_details with e | det
    · rw [hm] at h
      cases h
    · rw [hm] at h
      cases h
      constructor
      · refine mergeDetails_keys_pred _ po.perm_user_type_details st.details det hm ?_ ?_
        · intro kv hkv
          exact (mem_setUpdate st.known_perms _ kv.1).mpr (Or.inl (hst.det_keys kv hkv))
        · intro kv hkv
          refine (mem_setUpdate st.known_perms _ kv.1).mpr (Or.inr ?_)
          have h1 : (alistFind? po.perm_user_type_details kv.1).isSome :=
            alistFind?_isSome_of_mem _ kv hkv
          have h2 := (hpo.keys_iff kv.1).mp h1
          simpa using alistFind?_isSome_mem_keys po.perm_is_global kv.1 h2
      · refine mergeDetails_inner_pred _ po.perm_user_type_details st.details det hm ?_ ?_
        · intro kv hkv ut hut
          exact (mem_setUpdate st.known_user_types _ ut).mpr
            (Or.inl (hst.inner_keys kv hkv ut hut))
        · intro kv hkv ut hut
          refine (mem_setUpdate st.known_user_types _ ut).mpr (Or.inr ?_)
          exact hpo.inner_keys kv.1 kv.2 ut
            (alistFind?_of_mem_nodup _ kv.1 kv.2 hpo.det_nodup hkv) hut

theorem buildMerged_inv (env : AppEnv) (rrn : ResolveRuleNameFunc)
    (files : List CsvFile) (st st2 : MergeState) (hst : MergeInv st)
    (h : buildMerged env rrn st files = .ok st2) : MergeInv st2 := by
  induction files generalizing st with
  | nil =>
    cases h
    exact hst
  | cons f rest ih =>
    obtain ⟨fns, rows⟩ := f
    unfold buildMerged at h
    rcases hp : parseCsv env rrn fns rows with e | po
    · rw [hp] at h
      cases h
    · rw [hp] at h
      dsimp only at h
      rcases hm : mergeFile st po with e | st3
      · rw [hm] at h
        cases h
      · rw [hm] at h
        exact ih st3 (mergeFile_inv st st3 po hst (parseCsv_inv env rrn fns rows po hp) hm) h

/-- Coherence of the `_resolve_functions` result: the lookup table only
mentions known permissions and known user types. -/
theorem resolveFunctions_coherent (env : AppEnv) (rrn : ResolveRuleNameFunc)
    (hr : HasRuleFunc) (files : List CsvFile) (r : ResolvedOutput)
    (h : resolveFunctions env rrn hr files = .ok r) :
    (∀ p, (alistFind? r.permission_lookup p).isSome → p ∈ r.known_perms) ∧
    (∀ p inner ut, alistFind? r.permission_lookup p = some inner →
      (alistFind? inner ut).isSome → ut ∈ r.known_user_types) := by
  unfold resolveFunctions at h
  rcases hb : buildMerged env rrn initMergeState files with e | st
  · rw [hb] at h
    cases h
  · rw [hb] at h
    dsimp only at h
    rcases hs : resolveStage hr st.permission_is_global [] st.details with e | lookup
    · rw [hs] at h
      cases h
    · rw [hs] at h
      cases h
      have hminv : MergeInv st :=
        buildMerged_inv env rrn files initMergeState st
          ⟨fun kv hkv => by simp [initMergeState] at hkv,
           fun kv hkv ut hut => by simp [initMergeState] at hkv⟩ hb
      constructor
      · refine resolveStage_keys_pred _ hr st.permission_is_global st.details [] lookup hs ?_ ?_
        · intro p hp
          simp [alistFind?] at hp
        · intro kv hkv
          exact hminv.det_keys kv hkv
      · refine resolveStage_inner_pred _ hr st.permission_is_global st.details [] lookup hs ?_ ?_
        · intro p inner ut hfind hut
          simp [alistFind?] at hfind
        · intro kv hkv ut hut
          exact hminv.inner_keys kv hkv ut hut

/-! ### Concrete fixtures for the claim theorems -/

/-- One installed app `app1` with one model `Widget`. -/
def envW : AppEnv := [("app1", ["widget"])]

/-- No external rule function can be imported. -/
def hrW : HasRuleFunc := fun _ _ => false

/-- External rule behaviour for invoking evaluators (irrelevant to the
claims exercised here). -/
def rulesW : String → String → Unit → Option Unit → Bool := fun _ _ _ _ => false

/-- CSV header with a single user-type column `U`. -/
def hdrW : List String := ["Model", "App", "Action", "Is Global", "U"]

/-- One-row source whose single cell under user type `U` is `s`. -/
def fileCell (s : String) : CsvFile :=
  (hdrW, [["Widget", "app1", "detail", "no", s]])

/-- The `_resolve_functions` output for the source with cell `"all"`. -/
def resolvedAll : ResolvedOutput :=
  (resolveFunctions envW defaultResolveRuleName hrW [fileCell "all"]).toOption.getD
    ⟨[], [], [], []⟩

/-- The `_resolve_functions` output for the unrecognised cell `"blah"`. -/
def resolvedBlah : ResolvedOutput :=
  (resolveFunctions envW defaultResolveRuleName hrW [fileCell "blah"]).toOption.getD
    ⟨[], [], [], []⟩

/-- The conflict error raised when two sources disagree on the `U` cell of
`app1.detail_widget`. -/
def errC1 : Err :=
  .valueError
    "Permission app1.detail_widget for user type U is inconsistent with a previous CSV file"

/-- The cell recorded for user type `U` when the cell text is `s`. -/
def prCell (s : String) : PartiallyResolvedPermission :=
  ⟨"app1", some "widget", some "detail", some s⟩

/-- The parse output of `fileCell s`. -/
def poCell (s : String) : ParseOutput :=
  ⟨[("app1.detail_widget", false)], [("app1.detail_widget", [("U", prCell s)])], ["U"]⟩

/-- The merge accumulator after merging `fileCell s` into the empty state. -/
def stCell (s : String) : MergeState :=
  ⟨[("app1.detail_widget", false)], ["U"], ["app1.detail_widget"],
    [("app1.detail_widget", [("U", prCell s)])]⟩

/-- `_parse_csv` on the one-row source, for any cell text `s`: the row is
not blank (its `Model` cell is `Widget`), is no comment, resolves to
`app1.detail_widget`, and stores the cell under user type `U`. -/
theorem parseCsv_fileCell (s : String) :
    parseCsv envW defaultResolveRuleName hdrW [["Widget", "app1", "detail", "no", s]] =
      .ok (poCell s) := rfl

theorem prCell_ne (a b : String) (hab : a ≠ b) : prCell a ≠ prCell b := by
  intro hc
  simp only [prCell, PartiallyResolvedPermission.mk.injEq, Option.some.injEq] at hc
  exact hab hc.2.2.2

theorem mergeUserTypes_cell_conflict (a b : String) (hab : a ≠ b) :
    mergeUserTypes "app1.detail_widget" [("U", prCell a)] [("U", prCell b)] =
      .error errC1 := by
  unfold mergeUserTypes
  rw [show alistFind? [("U", prCell a)] "U" = some (prCell a) from rfl]
  dsimp only
  rw [if_pos (fun hc => (prCell_ne b a (fun h => hab h.symm)) hc)]
  rfl

theorem mergeFile_cell_conflict (a b : String) (hab : a ≠ b) :
    mergeFile (stCell a) (poCell b) = .error errC1 := by
  have hmd : mergeDetails [("app1.detail_widget", [("U", prCell a)])]
      [("app1.detail_widget", [("U", prCell b)])] = .error errC1 := by
    have hmu2 : mergeUserTypes "app1.detail_widget"
        ((alistFind? [("app1.detail_widget", [("U", prCell a)])] "app1.detail_widget").getD [])
        [("U", prCell b)] = .error errC1 := by
      rw [show (alistFind? [("app1.detail_widget", [("U", prCell a)])]
            "app1.detail_widget").getD [] = [("U", prCell a)] from rfl]
      exact mergeUserTypes_cell_conflict a b hab
    unfold mergeDetails
    rw [hmu2]
  unfold mergeFile
  rw [show checkIsGlobalConsistent (stCell a).permission_is_global
        (poCell b).perm_is_global = .ok () from rfl]
  rw [show mergeDetails (stCell a).details (poCell b).perm_user_type_details =
        .error errC1 from hmd]

/-- C1 (counterexample): the spec example cells `"all"` and `""` for the
same (permission, user-category) cell in two sources do not merge with the
non-empty value kept: `_resolve_functions` raises `ValueError` in both
source orders. -/
theorem c1_counterexample :
    resolveFunctions envW defaultResolveRuleName hrW [fileCell "all", fileCell ""] =
      .error errC1 ∧
    resolveFunctions envW defaultResolveRuleName hrW [fileCell "", fileCell "all"] =
      .error errC1 :=
  ⟨by decide, by decide⟩

/-- C1 (amended): when the same (permission, user-category) cell is defined
in two one-row sources and exactly one of the two cell texts is the empty
string, the merge does not keep the non-empty value: it raises the
`ValueError` conflict, whichever order the two sources appear in. -/
theorem c1_amended_empty_conflicts (s : String) (hs : s ≠ "") :
    resolveFunctions envW defaultResolveRuleName hrW [fileCell s, fileCell ""] =
      .error errC1 ∧
    resolveFunctions envW defaultResolveRuleName hrW [fileCell "", fileCell s] =
      .error errC1 := by
  have hbuild : ∀ a b : String, a ≠ b →
      resolveFunctions envW defaultResolveRuleName hrW [fileCell a, fileCell b] =
        .error errC1 := by
    intro a b hab
    have hb : buildMerged envW defaultResolveRuleName initMergeState
        [fileCell a, fileCell b] = .error errC1 := by
      show (match parseCsv envW defaultResolveRuleName hdrW
              [["Widget", "app1", "detail", "no", a]] with
        | Except.error e => (Except.error e : Except Err MergeState)
        | Except.ok po =>
          match mergeFile initMergeState po with
          | Except.error e => Except.error e
          | Except.ok st2 =>
            buildMerged envW defaultResolveRuleName st2 [fileCell b]) =
        Except.error errC1
      rw [parseCsv_fileCell a]
      dsimp only
      rw [show mergeFile initMergeState (poCell a) = .ok (stCell a) from rfl]
      dsimp only
      show (match parseCsv envW defaultResolveRuleName hdrW
              [["Widget", "app1", "detail", "no", b]] with
        | Except.error e => (Except.error e : Except Err MergeState)
        | Except.ok po =>
          match mergeFile (stCell a) po with
          | Except.error e => Except.error e
          | Except.ok st2 => buildMerged envW defaultResolveRuleName st2 []) =
        Except.error errC1
      rw [parseCsv_fileCell b]
      dsimp only
      rw [mergeFile_cell_conflict a b hab]
    unfold resolveFunctions
    rw [hb]
  exact ⟨hbuild s "" hs, hbuild "" s (fun h => hs h.symm)⟩

/-- C1 (witness): the amended statement instantiated at the spec's own
example, `"all"` in one source and `""` in the other. -/
theorem c1_amended_witness :
    resolveFunctions envW defaultResolveRuleName hrW [fileCell "all", fileCell ""] =
      .error errC1 ∧
    resolveFunctions envW defaultResolveRuleName hrW [fileCell "", fileCell "all"] =
      .error errC1 :=
  c1_amended_empty_conflicts "all" (by decide)

theorem mkBackend_lookup (r : ResolvedOutput) :
    (mkBackend r).permission_lookup = r.permission_lookup := rfl

theorem mkBackend_known_perms (r : ResolvedOutput) :
    (mkBackend r).known_perms = r.known_perms := rfl

theorem mkBackend_known_user_types (r : ResolvedOutput) :
    (mkBackend r).known_user_types = r.known_user_types := rfl

/-- Unfolding of `has_perm` when the user category resolved. -/
theorem has_perm_some {User Obj : Type}
    (rules : String → String → User → Option Obj → Bool) (strict : Bool)
    (b : CSVPermissionsBackend) (ut : String) (user : User) (perm : String)
    (obj : Option Obj) :
    b.has_perm rules strict (some ut) user perm obj =
      if strict ∧ perm ∉ b.known_perms then
        .error (.lookupError ("Permission " ++ perm ++ " is not known"))
      else if strict ∧ ut ∉ b.known_user_types then
        .error (.lookupError ("User Type " ++ ut ++ " is not known"))
      else
        match alistFind? b.permission_lookup perm with
        | none => .ok false
        | some inner =>
          match alistFind? inner ut with
          | none => .ok false
          | some none => .error (.runtimeError "NoneType object is not callable")
          | some (some f) => f.call rules user obj := rfl

/-- C2: for a user with a resolvable category, `has_perm` raises
`LookupError` in strict mode for an unknown permission name or an unknown
user category; in non-strict mode either unknown condition returns false;
and when permission and category are known but the exact cell was never
populated, it returns false in both modes without raising. -/
theorem c2_has_perm_modes {User Obj : Type}
    (rules : String → String → User → Option Obj → Bool)
    (env : AppEnv) (rrn : ResolveRuleNameFunc) (hr : HasRuleFunc)
    (files : List CsvFile) (r : ResolvedOutput)
    (hb : resolveFunctions env rrn hr files = .ok r)
    (user : User) (obj : Option Obj) (ut perm : String) :
    (perm ∉ r.known_perms →
      (mkBackend r).has_perm rules true (some ut) user perm obj =
        .error (.lookupError ("Permission " ++ perm ++ " is not known"))) ∧
    (perm ∈ r.known_perms → ut ∉ r.known_user_types →
      (mkBackend r).has_perm rules true (some ut) user perm obj =
        .error (.lookupError ("User Type " ++ ut ++ " is not known"))) ∧
    (perm ∉ r.known_perms ∨ ut ∉ r.known_user_types →
      (mkBackend r).has_perm rules false (some ut) user perm obj = .ok false) ∧
    (∀ strict : Bool, perm ∈ r.known_perms → ut ∈ r.known_user_types →
      Option.bind (alistFind? r.permission_lookup perm)
        (fun inner => alistFind? inner ut) = none →
      (mkBackend r).has_perm rules strict (some ut) user perm obj = .ok false) := by
  have hco := resolveFunctions_coherent env rrn hr files r hb
  refine ⟨?_, ?_, ?_, ?_⟩
  · intro h1
    rw [has_perm_some, mkBackend_known_perms, mkBackend_known_user_types, mkBackend_lookup]
    rw [if_pos ⟨by simp, h1⟩]
  · intro h0 h1
    rw [has_perm_some, mkBackend_known_perms, mkBackend_known_user_types, mkBackend_lookup]
    rw [if_neg (by simp [h0]), if_pos ⟨by simp, h1⟩]
  · intro h1
    rw [has_perm_some, mkBackend_known_perms, mkBackend_known_user_types, mkBackend_lookup]
    rw [if_neg (by simp), if_neg (by simp)]
    rcases h1 with h1 | h1
    · have hnone : alistFind? r.permission_lookup perm = none := by
        rcases hf : alistFind? r.permission_lookup perm with _ | inner
        · rfl
        · exact absurd (hco.1 perm (by simp [hf])) h1
      rw [hnone]
    · rcases hf : alistFind? r.permission_lookup perm with _ | inner
      · rfl
      · have hnone2 : alistFind? inner ut = none := by
          rcases hg : alistFind? inner ut with _ | f
          · rfl
          · exact absurd (hco.2 perm inner ut hf (by simp [hg])) h1
        dsimp only
        rw [hnone2]
  · intro strict h0 h1 hmiss
    rw [has_perm_some, mkBackend_known_perms, mkBackend_known_user_types, mkBackend_lookup]
    rw [if_neg (by simp [h0]), if_neg (by simp [h1])]
    rcases hf : alistFind? r.permission_lookup perm with _ | inner
    · rfl
    · rw [hf] at hmiss
      simp only [Option.bind] at hmiss
      dsimp only
      rw [hmiss]

/-- A second source adding user type `V` and global permission
`app1.list_widget`, so that (`app1.detail_widget`, `V`) is known on both
axes while its cell is never populated by any source. -/
def fileList : CsvFile :=
  (["Model", "App", "Action", "Is Global", "V"],
   [["Widget", "app1", "list", "yes", "yes"]])

/-- The `_resolve_functions` output for the two-source configuration. -/
def resolvedTwo : ResolvedOutput :=
  (resolveFunctions envW defaultResolveRuleName hrW [fileCell "all", fileList]).toOption.getD
    ⟨[], [], [], []⟩

/-- C2 (witness): the strict-mode errors, the non-strict false, and the
known-but-unpopulated-cell false, each at a concrete input. -/
theorem c2_witness :
    resolveFunctions envW defaultResolveRuleName hrW [fileCell "all", fileList] =
      .ok resolvedTwo ∧
    (mkBackend resolvedTwo).has_perm rulesW true (some "U") () "app1.nope" none =
      .error (.lookupError "Permission app1.nope is not known") ∧
    (mkBackend resolvedTwo).has_perm rulesW true (some "W") () "app1.detail_widget" none =
      .error (.lookupError "User Type W is not known") ∧
    (mkBackend resolvedTwo).has_perm rulesW false (some "U") () "app1.nope" none =
      .ok false ∧
    (mkBackend resolvedTwo).has_perm rulesW true (some "V") () "app1.detail_widget" none =
      .ok false ∧
    (mkBackend resolvedTwo).has_perm rulesW false (some "V") () "app1.detail_widget" none =
      .ok false := by
  have hb : resolveFunctions envW defaultResolveRuleName hrW [fileCell "all", fileList] =
      .ok resolvedTwo := by decide
  refine ⟨hb, ?_, ?_, ?_, ?_, ?_⟩
  · exact (c2_has_perm_modes rulesW envW defaultResolveRuleName hrW _ resolvedTwo hb
      () none "U" "app1.nope").1 (by decide)
  · exact (c2_has_perm_modes rulesW envW defaultResolveRuleName hrW _ resolvedTwo hb
      () none "W" "app1.detail_widget").2.1 (by decide) (by decide)
  · exact (c2_has_perm_modes rulesW envW defaultResolveRuleName hrW _ resolvedTwo hb
      () none "U" "app1.nope").2.2.1 (Or.inl (by decide))
  · exact (c2_has_perm_modes rulesW envW defaultResolveRuleName hrW _ resolvedTwo hb
      () none "V" "app1.detail_widget").2.2.2 true (by decide) (by decide) (by decide)
  · exact (c2_has_perm_modes rulesW envW defaultResolveRuleName hrW _ resolvedTwo hb
      () none "V" "app1.detail_widget").2.2.2 false (by decide) (by decide) (by decide)

/-- C3 (code evaluated at the failing input): for the source whose only
cell is the unrecognised text `"blah"`, the build succeeds after silently
dropping the cell (the permission's inner dict stays empty, no fallback
claims it), and `has_perm` on that cell returns plain false in both strict
and non-strict mode — the very outcome the claim says cannot happen. -/
theorem c3_unknown_access_dropped :
    resolveFunctions envW defaultResolveRuleName hrW [fileCell "blah"] =
      .ok resolvedBlah ∧
    alistFind? resolvedBlah.permission_lookup "app1.detail_widget" = some [] ∧
    "app1.detail_widget" ∈ resolvedBlah.known_perms ∧
    "U" ∈ resolvedBlah.known_user_types ∧
    (mkBackend resolvedBlah).has_perm rulesW false (some "U") ()
      "app1.detail_widget" (some ()) = .ok false ∧
    (mkBackend resolvedBlah).has_perm rulesW true (some "U") ()
      "app1.detail_widget" (some ()) = .ok false :=
  ⟨by decide, by decide, by decide, by decide, by decide, by decide⟩

/-- C4: on cell text exactly `"all"`, build-time resolution fails for a
global entry (both in `_resolve_function` and through the per-cell
resolution loop, which wraps the error with the permission name), succeeds
for a local entry, and the produced decision raises the scope error when
invoked with no object and returns true for every user and any object. -/
theorem c4_all_cell (hr : HasRuleFunc) (app fname : String) :
    resolveFunction hr app "all" fname true =
      .error (.runtimeError "all cannot be used with global permissions.") ∧
    resolveFunction hr app "all" fname false = .ok (some .allObjects) ∧
    (∀ (permission : String) (m : Option String) (action : Option String),
      resolveDetail hr permission true ⟨app, m, action, some "all"⟩ =
        .error (.runtimeError ("all cannot be used with global permissions." ++
          " Permission: " ++ permission))) ∧
    (∀ (permission m0 : String) (action : Option String),
      resolveDetail hr permission false ⟨app, some m0, action, some "all"⟩ =
        .ok (some (some .allObjects))) ∧
    (∀ (User Obj : Type) (rules : String → String → User → Option Obj → Bool)
        (user : User),
      PermFn.allObjects.call rules user none =
        .error (.runtimeError "all cannot be used with global permissions.") ∧
      ∀ o : Obj, PermFn.allObjects.call rules user (some o) = .ok true) := by
  refine ⟨rfl, rfl, ?_, ?_, ?_⟩
  · intro permission m action
    rcases m with _ | m0 <;> rfl
  · intro permission m0 action
    rfl
  · intro User Obj rules user
    exact ⟨rfl, fun o => rfl⟩

/-- The parse output of the `"all"` source (for the C5 witness). -/
def parsedAll : ParseOutput :=
  (parseCsv envW defaultResolveRuleName hdrW
    [["Widget", "app1", "detail", "no", "all"]]).toOption.getD ⟨[], [], []⟩

/-- C5 (witness): the duplicate-source property at a concrete valid
source. -/
theorem c5_witness :
    parseCsv envW defaultResolveRuleName hdrW
      [["Widget", "app1", "detail", "no", "all"]] = .ok parsedAll ∧
    resolveFunctions envW defaultResolveRuleName hrW
        [(hdrW, [["Widget", "app1", "detail", "no", "all"]]),
         (hdrW, [["Widget", "app1", "detail", "no", "all"]])] =
      resolveFunctions envW defaultResolveRuleName hrW
        [(hdrW, [["Widget", "app1", "detail", "no", "all"]])] := by
  have hp : parseCsv envW defaultResolveRuleName hdrW
      [["Widget", "app1", "detail", "no", "all"]] = .ok parsedAll := by decide
  exact ⟨hp, (c5_duplicate_source_merge envW defaultResolveRuleName hrW hdrW
    [["Widget", "app1", "detail", "no", "all"]] parsedAll hp).1⟩

/-- Recognise the `LookupError` constructor. -/
def Err.isLookupErr : Err → Bool
  | .lookupError _ => true
  | _ => false

/-- C6 (counterexample): `is_global_perm` on an unknown permission raises
`ValueError`, not `LookupError` (the `KeyError` is caught and re-raised as
`ValueError`). -/
theorem c6_counterexample :
    resolveFunctions envW defaultResolveRuleName hrW [fileCell "all"] =
      .ok resolvedAll ∧
    (mkBackend resolvedAll).is_global_perm "app1.nope" =
      .error (.valueError "Permission app1.nope is not known") ∧
    (match (mkBackend resolvedAll).is_global_perm "app1.nope" with
      | .error e => e.isLookupErr
      | .ok _ => false) = false :=
  ⟨by decide, by decide, by decide⟩

/-- C6 (amended): for a permission missing from the is-global map,
`is_global_perm` raises `ValueError` (re-raised from the dict `KeyError`);
for a known permission it returns the stored flag. -/
theorem c6_amended_value_error (b : CSVPermissionsBackend) (perm : String) :
    (alistFind? b.permission_is_global perm = none →
      b.is_global_perm perm =
        .error (.valueError ("Permission " ++ perm ++ " is not known"))) ∧
    (∀ g : Bool, alistFind? b.permission_is_global perm = some g →
      b.is_global_perm perm = .ok g) := by
  constructor
  · intro h
    unfold CSVPermissionsBackend.is_global_perm
    rw [h]
  · intro g h
    unfold CSVPermissionsBackend.is_global_perm
    rw [h]

/-- C6 (witness): the amended statement at the concrete backend, for an
unknown and for a known permission. -/
theorem c6_amended_witness :
    (mkBackend resolvedAll).is_global_perm "app1.nope" =
      .error (.valueError "Permission app1.nope is not known") ∧
    (mkBackend resolvedAll).is_global_perm "app1.detail_widget" = .ok false :=
  ⟨(c6_amended_value_error (mkBackend resolvedAll) "app1.nope").1 (by decide),
   (c6_amended_value_error (mkBackend resolvedAll) "app1.detail_widget").2 false (by decide)⟩

/-- C7: rows whose first cell starts with `#` or `//` are skipped (the two
parses agree), but a row whose first cell starts with `;` is not skipped:
the parser processes it and fails looking up its (empty) app label. -/
theorem c7_comment_markers :
    parseCsv envW defaultResolveRuleName hdrW
      [["Widget", "app1", "detail", "no", "all"], ["#bad line", "", "", "", ""]] =
      parseCsv envW defaultResolveRuleName hdrW
        [["Widget", "app1", "detail", "no", "all"]] ∧
    parseCsv envW defaultResolveRuleName hdrW
      [["Widget", "app1", "detail", "no", "all"], ["//bad line", "", "", "", ""]] =
      parseCsv envW defaultResolveRuleName hdrW
        [["Widget", "app1", "detail", "no", "all"]] ∧
    parseCsv envW defaultResolveRuleName hdrW
      [["Widget", "app1", "detail", "no", "all"], [";bad line", "", "", "", ""]] =
      .error (.lookupError "No installed app with label .") :=
  ⟨by decide, by decide, by decide⟩

/-- CSV header in which the user-type column `U1` appears twice. -/
def hdrDup : List String := ["Model", "App", "Action", "Is Global", "U1", "U1"]

/-- C8: a duplicated non-empty user-type column raises no error:
`DictReader` keeps the last duplicate's cell (`"no"`, not `"yes"`), which
silently overwrites the first column's value. -/
theorem c8_duplicate_header_silent :
    parseCsv envW defaultResolveRuleName hdrDup
      [["Widget", "app1", "detail", "no", "yes", "no"]] =
      .ok ⟨[("app1.detail_widget", false)],
        [("app1.detail_widget",
          [("U1", ⟨"app1", some "widget", some "detail", some "no"⟩)])],
        ["U1", "U1"]⟩ := by decide

/-- C9: cell text exactly `"own:"` always fails at build time with a
`RuntimeError`, for every backing rule environment, permission, global
flag, app, model and action (the error is the missing-label error, or the
models-must-be-global error for the model-less non-global corner). -/
theorem c9_own_empty_label (hr : HasRuleFunc) (permission : String)
    (is_global : Bool) (app : String) (model : Option String)
    (action : Option String) :
    ∃ msg, resolveDetail hr permission is_global
      ⟨app, model, action, some "own:"⟩ = .error (.runtimeError msg) := by
  rcases model with _ | m
  · rcases is_global with _ | _
    · exact ⟨"Permissions without Models must be global.", rfl⟩
    · exact ⟨"No function name specified for own: . Remove : or specify a function to call.",
        rfl⟩
  · exact ⟨"No function name specified for own: . Remove : or specify a function to call.",
      rfl⟩

/-- CSV header with user-type columns `U` and `V`. -/
def hdrW2 : List String := ["Model", "App", "Action", "Is Global", "U", "V"]

/-- C10: two rows resolving to the same permission name parse without
error even when their global flags and cells disagree: the first row's
global flag is kept and the second row's cells overwrite the first row's
cells for every user type. -/
theorem c10_duplicate_rows (g1 g2 a1 a2 b1 b2 : String)
    (hg1 : g1 = "yes" ∨ g1 = "no") (hg2 : g2 = "yes" ∨ g2 = "no") :
    parseCsv envW defaultResolveRuleName hdrW2
      [["Widget", "app1", "approve", g1, a1, a2],
       ["WIDGET", "app1", "approve", g2, b1, b2]] =
      .ok ⟨[("app1.approve_widget", g1 == "yes")],
        [("app1.approve_widget",
          [("U", ⟨"app1", some "widget", some "approve", some b1⟩),
           ("V", ⟨"app1", some "widget", some "approve", some b2⟩)])],
        ["U", "V"]⟩ := by
  rcases hg1 with h1 | h1 <;> rcases hg2 with h2 | h2 <;> subst h1 <;> subst h2 <;> rfl

/-- C10 (witness): the duplicate-row behaviour at concrete rows whose
global flags and cells both disagree. -/
theorem c10_witness :
    parseCsv envW defaultResolveRuleName hdrW2
      [["Widget", "app1", "approve", "yes", "all", ""],
       ["WIDGET", "app1", "approve", "no", "", "yes"]] =
      .ok ⟨[("app1.approve_widget", true)],
        [("app1.approve_widget",
          [("U", ⟨"app1", some "widget", some "approve", some ""⟩),
           ("V", ⟨"app1", some "widget", some "approve", some "yes"⟩)])],
        ["U", "V"]⟩ :=
  c10_duplicate_rows "yes" "no" "all" "" "" "yes" (Or.inl rfl) (Or.inr rfl)

end CsvPermissions
